import Mathlib

/- Verification development for Cisco2Hosts.py: a shallow embedding of the
script's pure text-processing core (DHCP-pool extraction in
convert_to_host_file, host-file rendering, host-file parsing in
parse_host_file, and the command transcript of configure_fortinet_dns),
with theorems checking the specification's claims against it.

Scope notes:
* Strings are modelled over their character lists; Python's text
  predicates (str.strip, str.split, str.splitlines, int(), str.lower)
  are modelled over the ASCII range.  Unicode-only behaviours (Unicode
  digits, non-ASCII case folding, the U+0085/U+2028/U+2029 line breaks)
  are outside the model's scope; no claim depends on them.
* Python's sorted() with a key function is the stable ascending sort by
  that key; a stable sort by a total preorder is unique, so it is
  modelled by insertion sort (List.insertionSort) over the key preorder.
* Code that can raise an uncaught exception (int() inside the sort key
  of convert_to_host_file) is modelled with Option: none models the
  exception escaping the function.
* The interactive SSH shell of configure_fortinet_dns is modelled by
  the transcript of commands passed to send_command, in order; timing
  (sleep delays) and the received output are not modelled. -/

namespace Cisco2Hosts

/- Python str.isspace over the ASCII range: 0x09-0x0d, 0x1c-0x1f, 0x20.
str.strip(), str.split() with no arguments and the regex \s class use
exactly this set. -/
def pyWs (c : Char) : Bool :=
  c = ' ' || c = '\t' || c = '\n' || c = '\r' || c = '\x0b' || c = '\x0c' ||
  c = '\x1c' || c = '\x1d' || c = '\x1e' || c = '\x1f'

/- Line-break characters of str.splitlines over the ASCII range
(carriage return + line feed counts as a single break). -/
def lineBreakChar (c : Char) : Bool :=
  c = '\n' || c = '\r' || c = '\x0b' || c = '\x0c' ||
  c = '\x1c' || c = '\x1d' || c = '\x1e'

/- Python str.strip() with no arguments. -/
def stripChars (l : List Char) : List Char :=
  ((l.dropWhile pyWs).reverse.dropWhile pyWs).reverse

/- Python str.split(sep) for a one-character separator: empty pieces are
kept and the empty string splits to one empty piece. -/
def splitOnChar (sep : Char) : List Char → List (List Char)
  | [] => [[]]
  | c :: rest =>
    match splitOnChar sep rest with
    | [] => [[c]]
    | g :: gs => if c = sep then [] :: g :: gs else (c :: g) :: gs

/- Python sep.join(pieces) for a one-character separator. -/
def joinChar (sep : Char) : List (List Char) → List Char
  | [] => []
  | [g] => g
  | g :: gs => g ++ sep :: joinChar sep gs

/- Python str.splitlines(): the accumulator holds the current line in
reverse; a trailing line break produces no final empty line. -/
def splitLinesAux (cur : List Char) : List Char → List (List Char)
  | [] => if cur = [] then [] else [cur.reverse]
  | '\r' :: '\n' :: rest => cur.reverse :: splitLinesAux [] rest
  | c :: rest =>
    if lineBreakChar c then cur.reverse :: splitLinesAux [] rest
    else splitLinesAux (c :: cur) rest

def splitLinesC (l : List Char) : List (List Char) :=
  splitLinesAux [] l

/- Python str.split() with no arguments: split on whitespace runs,
discarding empty pieces. -/
def pyWordsAux (cur : List Char) : List Char → List (List Char)
  | [] => if cur = [] then [] else [cur.reverse]
  | c :: rest =>
    if pyWs c then
      if cur = [] then pyWordsAux [] rest else cur.reverse :: pyWordsAux [] rest
    else pyWordsAux (c :: cur) rest

def pyWords (l : List Char) : List (List Char) :=
  pyWordsAux [] l

/- Strip a literal prefix, returning the remainder on success. -/
def dropPfx : List Char → List Char → Option (List Char)
  | [], l => some l
  | _ :: _, [] => none
  | p :: ps, c :: cs => if c = p then dropPfx ps cs else none

def startsWithC (p l : List Char) : Bool :=
  (dropPfx p l).isSome

def digitVal (c : Char) : Nat := c.toNat - 48

/- Digits possibly separated by single underscores, as Python's int()
accepts after the first digit ("1_0" is 10, "1__0" and "1_" fail). -/
def pyDigitsVal (acc : Nat) : List Char → Option Nat
  | [] => some acc
  | c :: rest =>
    if c.isDigit then pyDigitsVal (10 * acc + digitVal c) rest
    else if c = '_' then
      match rest with
      | [] => none
      | d :: rest2 => if d.isDigit then pyDigitsVal (10 * acc + digitVal d) rest2 else none
    else none

def pyUnsigned : List Char → Option Nat
  | [] => none
  | c :: rest => if c.isDigit then pyDigitsVal (digitVal c) rest else none

/- Python int(str) over ASCII text: surrounding whitespace is stripped,
one optional sign, then underscore-separated digits; none models the
ValueError that int() raises otherwise. -/
def pyIntC (l : List Char) : Option Int :=
  match stripChars l with
  | '+' :: rest => (pyUnsigned rest).map (fun n => (n : Int))
  | '-' :: rest => (pyUnsigned rest).map (fun n => -(n : Int))
  | rest => (pyUnsigned rest).map (fun n => (n : Int))

def digitChar (n : Nat) : Char := Char.ofNat (48 + n)

/- Python str(n) for a natural number (decimal, no sign), written with
an explicit fuel bound (any fuel above n suffices) so that the
definition is structurally recursive and computes by reduction. -/
def pyStrNatAux : Nat → Nat → List Char
  | 0, _ => []
  | fuel + 1, n =>
    if n < 10 then [digitChar n]
    else pyStrNatAux fuel (n / 10) ++ [digitChar (n % 10)]

def pyStrNatChars (n : Nat) : List Char := pyStrNatAux (n + 1) n

/- Parse a nonempty all-digit string as a natural number. -/
def parseDigits (l : List Char) : Option Nat :=
  if l ≠ [] ∧ l.all Char.isDigit = true then
    some (l.foldl (fun a c => 10 * a + digitVal c) 0)
  else none

def seqOption : List (Option α) → Option (List α)
  | [] => some []
  | none :: _ => none
  | some a :: rest => (seqOption rest).map (fun l => a :: l)

/- ------------------------------------------------------------------
Reservation extraction (the loop of convert_to_host_file, lines 104-115
of Cisco2Hosts.py).  An extracted entry is (ip_address, hostname). -/

abbrev EntryC := List Char × List Char

def poolPfxLit : List Char := ("ip dhcp pool ").data
def hostPfxLit : List Char := ("host ").data

/- re.match(r"\s*ip dhcp pool (.+)$", line) on an already stripped line
coming from split('\n') (so the line holds no '\n', making the $ anchor
and the newline exclusion of '.' vacuous): the line must start with
"ip dhcp pool " followed by at least one character; the capture is the
rest of the line. -/
def poolOfChars (l : List Char) : Option (List Char) :=
  match dropPfx poolPfxLit l with
  | none => none
  | some rest => if rest = [] then none else some rest

/- re.match(r"\s*host ([^\s]+) ([^\s]+)", line) on a stripped line:
"host ", then a maximal nonempty run of non-whitespace (the ip), then
exactly one space, then at least one non-whitespace character (the
netmask, parsed but unused downstream). -/
def hostOfChars (l : List Char) : Option (List Char × List Char) :=
  match dropPfx hostPfxLit l with
  | none => none
  | some rest =>
    let t1 := rest.takeWhile (fun c => !pyWs c)
    if t1 = [] then none
    else
      match rest.drop t1.length with
      | ' ' :: r2 =>
        let t2 := r2.takeWhile (fun c => !pyWs c)
        if t2 = [] then none else some (t1, t2)
      | _ => none

/- One iteration of the extraction loop: state is (in_dhcp_pool,
pool_name); pool_name is lower-cased when assigned.  Matching order is
the source's: pool pattern first, then host pattern only when inside a
pool, and any other line resets the flag. -/
def extractStepC (dom : List Char) (st : Bool × List Char) (rawLine : List Char) :
    (Bool × List Char) × Option EntryC :=
  match poolOfChars (stripChars rawLine) with
  | some name => ((true, name.map Char.toLower), none)
  | none =>
    if st.1 then
      match hostOfChars (stripChars rawLine) with
      | some p => (st, some (p.1, st.2 ++ ('.') :: dom))
      | none => ((false, st.2), none)
    else ((false, st.2), none)

def extractFromC (dom : List Char) (st : Bool × List Char) : List (List Char) → List EntryC
  | [] => []
  | l :: ls =>
    ((extractStepC dom st l).2).toList ++ extractFromC dom (extractStepC dom st l).1 ls

def extractStateC (dom : List Char) (st : Bool × List Char) : List (List Char) → Bool × List Char
  | [] => st
  | l :: ls => extractStateC dom (extractStepC dom st l).1 ls

/- The extraction pass of convert_to_host_file: split the raw dump on
'\n' and run the loop from the initial state. -/
def extract_records (dhcpConfig dom : List Char) : List EntryC :=
  extractFromC dom (false, []) (splitOnChar ('\n') dhcpConfig)

/- ------------------------------------------------------------------
Sorting and rendering (lines 117-125 of Cisco2Hosts.py). -/

/- The sort key: tuple(map(int, ip.split('.')[1:])); none when int()
raises on some component. -/
def keyOf (ip : List Char) : Option (List Int) :=
  seqOption (((splitOnChar ('.') ip).drop 1).map pyIntC)

def keyD (ip : List Char) : List Int := (keyOf ip).getD []

/- Python's tuple comparison: lexicographic, a strict prefix is
smaller. -/
def lexLe : List Int → List Int → Bool
  | [], _ => true
  | _ :: _, [] => false
  | a :: as, b :: bs => if a < b then true else if b < a then false else lexLe as bs

def entryRel (a b : EntryC) : Prop := lexLe (keyD a.1) (keyD b.1) = true

instance : DecidableRel entryRel := fun a b => by unfold entryRel; infer_instance

/- sorted(host_entries, key=lambda x: tuple(map(int, x[0].split('.')[1:]))):
none models the ValueError escaping when a key fails; otherwise the
stable ascending sort by the key. -/
def sortEntriesC (l : List EntryC) : Option (List EntryC) :=
  if l.all (fun e => (keyOf e.1).isSome) then some (List.insertionSort entryRel l)
  else none

def headerPre : List Char :=
  ("# Auto created host file \n# Generated from switch dhcp configuration \n# Generated on ").data
def headerPost : List Char := (" \n").data

/- The three-line header; the timestamp now (datetime.now strftime
"%Y-%m-%d %H:%M" in the source) is threaded as an explicit argument. -/
def headerC (now : List Char) : List Char := headerPre ++ now ++ headerPost

/- f"{ip} {hostname}" -/
def entryLineC (e : EntryC) : List Char := e.1 ++ (' ') :: e.2

/- header + existing_content + "\n".join(generated lines). -/
def renderHostDocC (entries : List EntryC) (existing now : List Char) : Option (List Char) :=
  (sortEntriesC entries).map
    (fun s => headerC now ++ existing ++ joinChar ('\n') (s.map entryLineC))

def convertC (dhcpConfig existing dom now : List Char) : Option (List Char) :=
  renderHostDocC (extract_records dhcpConfig dom) existing now

/- convert_to_host_file(dhcp_config, existing_content, dnsdomain), with
the generation timestamp made an explicit argument; none models the
ValueError raised by the sort key on a malformed extracted address. -/
def convert_to_host_file (dhcp_config existing_content dnsdomain now : String) : Option String :=
  (convertC dhcp_config.data existing_content.data dnsdomain.data now.data).map String.mk

/- ------------------------------------------------------------------
parse_host_file (lines 206-215 of Cisco2Hosts.py).  A parsed entry is
(hostname, ip_address). -/

def commentPfxLit : List Char := ("#").data

def parseLineC (l : List Char) : Option EntryC :=
  if stripChars l ≠ [] ∧ startsWithC commentPfxLit l = false then
    match pyWords l with
    | [ip, host] => some (host, ip)
    | _ => none
  else none

def parseLinesC : List (List Char) → List EntryC
  | [] => []
  | l :: ls => (parseLineC l).toList ++ parseLinesC ls

def parseC (content : List Char) : List EntryC :=
  parseLinesC (splitLinesC content)

def parse_host_file (host_file_content : String) : List (String × String) :=
  (parseC host_file_content.data).map (fun e => (String.mk e.1, String.mk e.2))

/- ------------------------------------------------------------------
configure_fortinet_dns (lines 156-204 of Cisco2Hosts.py), modelled as
the ordered transcript of command strings handed to send_command. -/

structure FortinetConfig where
  base_name : String
  ttl : Nat
  primary_dns : Option String
  contact : Option String

def defaultPrimary : String := "a.root-servers.net"
def defaultContact : String := "hostmaster@webserver.com"

def isQuadGroup (g : List Char) : Bool :=
  decide (g ≠ []) && decide (g.length ≤ 3) && g.all Char.isDigit

def isQuadB (l : List Char) : Bool :=
  match splitOnChar ('.') l with
  | [a, b, c, d] => isQuadGroup a && isQuadGroup b && isQuadGroup c && isQuadGroup d
  | _ => false

/- re.match(r'^\d{1,3}(\.\d{1,3}){3}$', ip): an exact dotted quad of
1-3-digit groups, optionally followed by one trailing newline, because
Python's $ anchor also matches just before a final newline. -/
def pyIpv4MatchC (l : List Char) : Bool :=
  isQuadB l || (decide (l.getLast? = some ('\n')) && isQuadB l.dropLast)

/- The spec's wording of the address-family test ("a string matching
four dot-separated 1-3 digit groups"), for comparison with the code's
regex semantics above. -/
def specIpv4Shape (s : String) : Bool := isQuadB s.data

def setTypePfxLit : List Char := ("set type ").data
def setIpPfxLit : List Char := ("set ip ").data
def setIpv6PfxLit : List Char := ("set ipv6 ").data

/- One per-record command
f"edit {idx}\nset type {ty}\nset hostname \"{hostname}\"\nset {kw} {ip}\nnext",
written with its five lines explicit (kw is "set ip " or "set ipv6 "). -/
def recCmdC (ty kw : List Char) (hostname ip : List Char) (idx : Nat) : List Char :=
  ("edit ").data ++ pyStrNatChars idx ++
    ('\n') :: (setTypePfxLit ++ ty ++
    ('\n') :: (("set hostname \"").data ++ hostname ++ ('"') ::
    ('\n') :: (kw ++ ip ++
    ('\n') :: ("next").data)))

/- The forward-record command of one entry (lines 185-188). -/
def fwdCmdC (hostname ip : List Char) (idx : Nat) : List Char :=
  if pyIpv4MatchC ip then recCmdC (("A").data) setIpPfxLit hostname ip idx
  else recCmdC (("AAAA").data) setIpv6PfxLit hostname ip idx

/- The reverse-record command of one entry (lines 194-197). -/
def ptrCmdC (hostname ip : List Char) (idx : Nat) : List Char :=
  if pyIpv4MatchC ip then recCmdC (("PTR").data) setIpPfxLit hostname ip idx
  else recCmdC (("PTR_V6").data) setIpv6PfxLit hostname ip idx

/- The per-entry loop (lines 180-200): each entry is (hostname, ip) and
consumes two index slots, forward record first. -/
def dnsEntryCmdsC : List EntryC → Nat → List (List Char)
  | [], _ => []
  | e :: rest, idx =>
    fwdCmdC e.1 e.2 idx :: ptrCmdC e.1 e.2 (idx + 1) :: dnsEntryCmdsC rest (idx + 2)

/- f"set domain ...\nset ttl ...\nset primary-name ...\nset contact ..."
with the .get defaults of lines 162-163. -/
def megaCmdC (cfg : FortinetConfig) (dom : List Char) : List Char :=
  ("set domain \"").data ++ dom ++ ("\"\nset ttl ").data ++ pyStrNatChars cfg.ttl ++
    ("\nset primary-name \"").data ++ (cfg.primary_dns.getD defaultPrimary).data ++
    ("\"\nset contact \"").data ++ (cfg.contact.getD defaultContact).data ++ ("\"").data

def transcriptC (cfg : FortinetConfig) (dom : List Char) (entries : List EntryC) :
    List (List Char) :=
  ("config system dns-database").data ::
  (("delete \"").data ++ cfg.base_name.data ++ ("\"").data) ::
  (("edit \"").data ++ cfg.base_name.data ++ ("\"").data) ::
  megaCmdC cfg dom ::
  ("config dns-entry").data ::
  (dnsEntryCmdsC entries 1 ++ [("end\nnext\nend").data])

/- The full ordered command transcript of configure_fortinet_dns. -/
def configure_fortinet_dns (cfg : FortinetConfig) (dnsdomain : String)
    (dns_entries : List (String × String)) : List String :=
  (transcriptC cfg dnsdomain.data (dns_entries.map (fun e => (e.1.data, e.2.data)))).map
    String.mk

def editPfxLit : List Char := ("edit ").data


/- Recognize a per-record "edit <idx>" command: after the prefix
"edit ", the text up to the first line break must be a nonempty digit
string (the zone-level edit command has a quoted name there and is
never recognized). -/
def editIdxC (cmd : List Char) : Option Nat :=
  match dropPfx editPfxLit cmd with
  | none => none
  | some rest => parseDigits (rest.takeWhile (fun c => c != '\n'))

def editIdxOf (cmd : String) : Option Nat := editIdxC cmd.data

/- The record types named by "set type ..." lines of one command. -/
def cmdTypesC (cmd : List Char) : List (List Char) :=
  (splitLinesC cmd).filterMap (fun l => dropPfx setTypePfxLit l)

/- Which address keyword ("set ip" or "set ipv6") each address-setting
line of one command uses. -/
def cmdAddrKindsC (cmd : List Char) : List (List Char) :=
  (splitLinesC cmd).filterMap (fun l =>
    match dropPfx setIpv6PfxLit l with
    | some _ => some (("ipv6").data)
    | none =>
      match dropPfx setIpPfxLit l with
      | some _ => some (("ip").data)
      | none => none)

/- Record types emitted for one entry: forward command then reverse
command. -/
def entryTypesC (hostname ip : List Char) (idx : Nat) : List (List Char) :=
  cmdTypesC (fwdCmdC hostname ip idx) ++ cmdTypesC (ptrCmdC hostname ip (idx + 1))

def entryAddrKindsC (hostname ip : List Char) (idx : Nat) : List (List Char) :=
  cmdAddrKindsC (fwdCmdC hostname ip idx) ++ cmdAddrKindsC (ptrCmdC hostname ip (idx + 1))

/- String-level views of the per-entry record types and address
keywords. -/
def entry_record_types (hostname ip : String) (idx : Nat) : List String :=
  (entryTypesC hostname.data ip.data idx).map String.mk

def entry_addr_keywords (hostname ip : String) (idx : Nat) : List String :=
  (entryAddrKindsC hostname.data ip.data idx).map String.mk

/- ==================================================================
Helper lemmas: splitting, joining, words and stripping. -/

theorem splitOnChar_ne_nil (sep : Char) (l : List Char) : splitOnChar sep l ≠ [] := by
  cases l with
  | nil => simp [splitOnChar]
  | cons c rest =>
    unfold splitOnChar
    cases splitOnChar sep rest with
    | nil => simp
    | cons g gs =>
      by_cases hc : c = sep <;> simp [hc]

theorem splitOnChar_cons_sep (sep : Char) (b : List Char) :
    splitOnChar sep (sep :: b) = [] :: splitOnChar sep b := by
  conv_lhs => unfold splitOnChar
  cases h : splitOnChar sep b with
  | nil => exact absurd h (splitOnChar_ne_nil sep b)
  | cons g gs => simp

theorem splitOnChar_cons_ne (sep c : Char) (b : List Char) (hc : c ≠ sep) :
    ∃ g gs, splitOnChar sep b = g :: gs ∧ splitOnChar sep (c :: b) = (c :: g) :: gs := by
  cases h : splitOnChar sep b with
  | nil => exact absurd h (splitOnChar_ne_nil sep b)
  | cons g gs =>
    refine ⟨g, gs, rfl, ?_⟩
    unfold splitOnChar
    rw [h]
    simp [hc]

theorem splitOnChar_append_sep (sep : Char) (a b : List Char) (ha : ∀ c ∈ a, c ≠ sep) :
    splitOnChar sep (a ++ sep :: b) = a :: splitOnChar sep b := by
  induction a with
  | nil => simpa using splitOnChar_cons_sep sep b
  | cons c as ih =>
    have hc : c ≠ sep := ha c (by simp)
    have ih' := ih (fun x hx => ha x (by simp [hx]))
    obtain ⟨g, gs, hg, hcons⟩ := splitOnChar_cons_ne sep c (as ++ sep :: b) hc
    rw [List.cons_append, hcons]
    have h2 : g :: gs = as :: splitOnChar sep b := hg.symm.trans ih'
    injection h2 with h3 h4
    rw [h3, h4]

theorem splitOnChar_no_sep (sep : Char) (l : List Char) (hl : ∀ c ∈ l, c ≠ sep) :
    splitOnChar sep l = [l] := by
  induction l with
  | nil => rfl
  | cons c rest ih =>
    have hc : c ≠ sep := hl c (by simp)
    have ih' := ih (fun x hx => hl x (by simp [hx]))
    obtain ⟨g, gs, hg, hcons⟩ := splitOnChar_cons_ne sep c rest hc
    rw [hcons]
    rw [ih'] at hg
    injection hg with h1 h2
    rw [h1, h2]

theorem joinChar_splitOnChar (sep : Char) (l : List Char) :
    joinChar sep (splitOnChar sep l) = l := by
  induction l with
  | nil => rfl
  | cons c rest ih =>
    unfold splitOnChar
    cases h : splitOnChar sep rest with
    | nil => exact absurd h (splitOnChar_ne_nil sep rest)
    | cons g gs =>
      rw [h] at ih
      by_cases hc : c = sep
      · subst hc
        simp only [if_pos rfl]
        cases gs with
        | nil => simpa [joinChar] using ih
        | cons g2 gs2 => simpa [joinChar] using ih
      · simp only [if_neg hc]
        cases gs with
        | nil => simpa [joinChar] using ih
        | cons g2 gs2 => simpa [joinChar] using ih

/- splitLinesAux equation lemmas (the '\r\n' arm of the match overlaps
with the general arm, so these are proved by case splitting). -/

theorem splitLinesAux_cons_not_break (cur rest : List Char) (c : Char)
    (h : lineBreakChar c = false) :
    splitLinesAux cur (c :: rest) = splitLinesAux (c :: cur) rest := by
  conv_lhs => unfold splitLinesAux
  split
  next heq => exact absurd heq (by simp)
  next rest1 heq =>
    cases heq
    exact absurd h (by decide)
  next c1 rest1 hne heq =>
    cases heq
    simp [h]

theorem splitLinesAux_cons_nl (cur rest : List Char) :
    splitLinesAux cur ('\n' :: rest) = cur.reverse :: splitLinesAux [] rest := rfl

theorem breakChar_ws (c : Char) (h : lineBreakChar c = true) : pyWs c = true := by
  simp only [lineBreakChar, Bool.or_eq_true, decide_eq_true_eq, or_assoc] at h
  rcases h with h | h | h | h | h | h | h <;> subst h <;> decide

theorem ws_of_not_break_false (c : Char) (h : pyWs c = false) : lineBreakChar c = false := by
  cases hb : lineBreakChar c with
  | false => rfl
  | true => exact absurd (breakChar_ws c hb) (by simp [h])

theorem splitLinesAux_no_break (a : List Char) (ha : ∀ c ∈ a, lineBreakChar c = false) :
    ∀ cur, splitLinesAux cur a = if cur.reverse ++ a = [] then [] else [cur.reverse ++ a] := by
  induction a with
  | nil =>
    intro cur
    by_cases h : cur = [] <;> simp [splitLinesAux, h]
  | cons c rest ih =>
    intro cur
    have hc : lineBreakChar c = false := ha c (by simp)
    rw [splitLinesAux_cons_not_break cur rest c hc,
      ih (fun x hx => ha x (by simp [hx])) (c :: cur)]
    simp

theorem splitLinesAux_append_nl (a rest : List Char) (ha : ∀ c ∈ a, lineBreakChar c = false) :
    ∀ cur, splitLinesAux cur (a ++ '\n' :: rest) = (cur.reverse ++ a) :: splitLinesAux [] rest := by
  induction a with
  | nil => intro cur; simpa using splitLinesAux_cons_nl cur rest
  | cons c as ih =>
    intro cur
    have hc : lineBreakChar c = false := ha c (by simp)
    rw [List.cons_append, splitLinesAux_cons_not_break cur (as ++ '\n' :: rest) c hc,
      ih (fun x hx => ha x (by simp [hx])) (c :: cur)]
    simp

theorem splitLinesC_append_nl (a rest : List Char) (ha : ∀ c ∈ a, lineBreakChar c = false) :
    splitLinesC (a ++ '\n' :: rest) = a :: splitLinesC rest := by
  simpa [splitLinesC] using splitLinesAux_append_nl a rest ha []

theorem splitLinesC_no_break (a : List Char) (ha : ∀ c ∈ a, lineBreakChar c = false) :
    splitLinesC a = if a = [] then [] else [a] := by
  simpa [splitLinesC] using splitLinesAux_no_break a ha []

theorem splitLinesC_joinChar (ls : List (List Char))
    (h : ∀ l ∈ ls, l ≠ [] ∧ ∀ c ∈ l, lineBreakChar c = false) :
    splitLinesC (joinChar ('\n') ls) = ls := by
  induction ls with
  | nil => rfl
  | cons a t ih =>
    cases t with
    | nil =>
      have ha := h a (by simp)
      have hj : joinChar ('\n') [a] = a := rfl
      rw [hj, splitLinesC_no_break a ha.2, if_neg ha.1]
    | cons b t2 =>
      have ha := h a (by simp)
      have hj : joinChar ('\n') (a :: b :: t2) = a ++ ('\n') :: joinChar ('\n') (b :: t2) := rfl
      rw [hj, splitLinesC_append_nl a _ ha.2,
        ih (fun x hx => h x (List.mem_cons_of_mem a hx))]

/- pyWords lemmas. -/

theorem pyWordsAux_cons_ws (cur rest : List Char) (c : Char) (h : pyWs c = true) :
    pyWordsAux cur (c :: rest) =
      if cur = [] then pyWordsAux [] rest else cur.reverse :: pyWordsAux [] rest := by
  simp [pyWordsAux, h]

theorem pyWordsAux_cons_not_ws (cur rest : List Char) (c : Char) (h : pyWs c = false) :
    pyWordsAux cur (c :: rest) = pyWordsAux (c :: cur) rest := by
  simp [pyWordsAux, h]

theorem pyWordsAux_through (w : List Char) (hw : ∀ c ∈ w, pyWs c = false) :
    ∀ cur t, pyWordsAux cur (w ++ t) = pyWordsAux (w.reverse ++ cur) t := by
  induction w with
  | nil => intro cur t; simp
  | cons c ws ih =>
    intro cur t
    rw [List.cons_append, pyWordsAux_cons_not_ws cur (ws ++ t) c (hw c (by simp)),
      ih (fun x hx => hw x (by simp [hx])) (c :: cur) t]
    simp

theorem pyWords_single (w : List Char) (hne : w ≠ []) (hw : ∀ c ∈ w, pyWs c = false) :
    pyWords w = [w] := by
  have := pyWordsAux_through w hw [] []
  simp only [List.append_nil] at this
  rw [pyWords, this, pyWordsAux]
  simp [hne]

theorem pyWords_pair (a b : List Char) (hna : a ≠ []) (hnb : b ≠ [])
    (hwa : ∀ c ∈ a, pyWs c = false) (hwb : ∀ c ∈ b, pyWs c = false) :
    pyWords (a ++ (' ') :: b) = [a, b] := by
  rw [pyWords, pyWordsAux_through a hwa [] _, List.append_nil,
    pyWordsAux_cons_ws _ b (' ') (by decide)]
  have hb := pyWordsAux_through b hwb [] []
  simp only [List.append_nil] at hb
  rw [if_neg (by simpa using hna), hb, pyWordsAux]
  simp [hnb]

/- stripChars lemmas. -/

theorem stripChars_eq_nil_iff (l : List Char) :
    stripChars l = [] ↔ ∀ c ∈ l, pyWs c = true := by
  unfold stripChars
  rw [List.reverse_eq_nil_iff, List.dropWhile_eq_nil_iff]
  constructor
  · intro h c hc
    by_cases hdrop : c ∈ l.dropWhile pyWs
    · exact h c (by simpa using hdrop)
    · have hsplit := List.takeWhile_append_dropWhile pyWs l
      have : c ∈ l.takeWhile pyWs := by
        rw [← hsplit] at hc
        rcases List.mem_append.mp hc with h1 | h1
        · exact h1
        · exact absurd h1 hdrop
      exact List.mem_takeWhile_imp this
  · intro h c hc
    exact h c (List.dropWhile_subset pyWs (by simpa using hc))

theorem stripChars_ne_nil (l : List Char) (c : Char) (hc : c ∈ l) (hw : pyWs c = false) :
    stripChars l ≠ [] := by
  intro h
  have := (stripChars_eq_nil_iff l).mp h c hc
  simp [hw] at this

/- Digit and number lemmas. -/

theorem digitChar_isDigit (n : Nat) (h : n < 10) : (digitChar n).isDigit = true := by
  interval_cases n <;> decide

theorem digitVal_digitChar (n : Nat) (h : n < 10) : digitVal (digitChar n) = n := by
  interval_cases n <;> decide

theorem pyStrNatChars_ne_nil (n : Nat) : pyStrNatChars n ≠ [] := by
  unfold pyStrNatChars pyStrNatAux
  split <;> simp

theorem pyStrNatAux_all_digit (fuel : Nat) :
    ∀ n, ∀ c ∈ pyStrNatAux fuel n, c.isDigit = true := by
  induction fuel with
  | zero => intro n c hc; cases hc
  | succ f ih =>
    intro n c hc
    rw [pyStrNatAux] at hc
    split at hc
    next h =>
      simp only [List.mem_singleton] at hc
      subst hc
      exact digitChar_isDigit n h
    next h =>
      rcases List.mem_append.mp hc with h1 | h1
      · exact ih (n / 10) c h1
      · simp only [List.mem_singleton] at h1
        subst h1
        exact digitChar_isDigit (n % 10) (Nat.mod_lt _ (by omega))

theorem pyStrNatChars_all_digit (n : Nat) : ∀ c ∈ pyStrNatChars n, c.isDigit = true :=
  pyStrNatAux_all_digit (n + 1) n

theorem pyStrNatAux_fold (fuel : Nat) : ∀ n a, n < fuel →
    List.foldl (fun x c => 10 * x + digitVal c) a (pyStrNatAux fuel n) =
      a * 10 ^ (pyStrNatAux fuel n).length + n := by
  induction fuel with
  | zero => intro n a h; omega
  | succ f ih =>
    intro n a h
    rw [pyStrNatAux]
    split
    next h10 =>
      simp only [List.foldl_cons, List.foldl_nil, List.length_singleton,
        digitVal_digitChar n h10, pow_one]
      omega
    next h10 =>
      have hdiv : n / 10 < f := by
        have h1 : n / 10 < n := Nat.div_lt_self (by omega) (by omega)
        omega
      rw [List.foldl_append, ih (n / 10) a hdiv]
      simp only [List.foldl_cons, List.foldl_nil, List.length_append, List.length_singleton,
        digitVal_digitChar (n % 10) (Nat.mod_lt _ (by omega))]
      have hp : 10 ^ ((pyStrNatAux f (n / 10)).length + 1) =
          10 ^ (pyStrNatAux f (n / 10)).length * 10 := pow_succ 10 _
      have hm := Nat.div_add_mod n 10
      generalize (10 : Nat) ^ (pyStrNatAux f (n / 10)).length = P at hp ⊢
      rw [hp]
      ring_nf
      omega

theorem parseDigits_pyStrNat (n : Nat) : parseDigits (pyStrNatChars n) = some n := by
  rw [parseDigits, if_pos]
  · rw [pyStrNatChars, pyStrNatAux_fold (n + 1) n 0 (by omega)]
    norm_num
  · exact ⟨pyStrNatChars_ne_nil n,
      List.all_eq_true.mpr (fun c hc => pyStrNatChars_all_digit n c hc)⟩

theorem digit_not_ws (c : Char) (h : c.isDigit = true) : pyWs c = false := by
  cases hw : pyWs c with
  | false => rfl
  | true =>
    exfalso
    simp only [pyWs, Bool.or_eq_true, decide_eq_true_eq, or_assoc] at hw
    rcases hw with h1 | h1 | h1 | h1 | h1 | h1 | h1 | h1 | h1 | h1 <;> subst h1 <;>
      exact absurd h (by decide)

theorem digit_not_break (c : Char) (h : c.isDigit = true) : lineBreakChar c = false :=
  ws_of_not_break_false c (digit_not_ws c h)

theorem digit_ne (c : Char) (h : c.isDigit = true) (d : Char) (hd : d.isDigit = false) :
    c ≠ d := by
  intro e
  subst e
  rw [h] at hd
  cases hd

theorem pyDigitsVal_digits (l : List Char) (hl : ∀ c ∈ l, c.isDigit = true) :
    ∀ acc, (pyDigitsVal acc l).isSome = true := by
  induction l with
  | nil => intro acc; rfl
  | cons c rest ih =>
    intro acc
    rw [pyDigitsVal.eq_def]
    simp only [hl c (List.mem_cons_self c rest), if_true]
    exact ih (fun x hx => hl x (by simp [hx])) _

theorem dropWhile_all_false (p : Char → Bool) (l : List Char) (h : ∀ c ∈ l, p c = false) :
    l.dropWhile p = l := by
  cases l with
  | nil => rfl
  | cons c rest =>
    rw [List.dropWhile_cons, if_neg]
    simp [h c (by simp)]

theorem stripChars_no_ws (l : List Char) (h : ∀ c ∈ l, pyWs c = false) :
    stripChars l = l := by
  unfold stripChars
  rw [dropWhile_all_false _ l h,
    dropWhile_all_false _ l.reverse (fun c hc => h c (by simpa using hc)),
    List.reverse_reverse]

theorem pyIntC_digits_isSome (l : List Char) (hne : l ≠ []) (hl : ∀ c ∈ l, c.isDigit = true) :
    (pyIntC l).isSome = true := by
  cases l with
  | nil => exact absurd rfl hne
  | cons c rest =>
    have hc := hl c (by simp)
    have hstrip : stripChars (c :: rest) = c :: rest :=
      stripChars_no_ws _ (fun x hx => digit_not_ws x (hl x hx))
    unfold pyIntC
    rw [hstrip]
    have hrest : (pyUnsigned (c :: rest)).isSome = true := by
      rw [pyUnsigned, if_pos hc]
      exact pyDigitsVal_digits rest (fun x hx => hl x (by simp [hx])) _
    split
    next heq =>
      exfalso
      have : c = '+' := by injection heq
      exact digit_ne c hc ('+') (by decide) this
    next heq =>
      exfalso
      have : c = '-' := by injection heq
      exact digit_ne c hc ('-') (by decide) this
    next =>
      obtain ⟨v, hv⟩ := Option.isSome_iff_exists.mp hrest
      rw [hv]
      rfl

/- dropPfx and takeWhile lemmas. -/

theorem dropPfx_append (p rest : List Char) : dropPfx p (p ++ rest) = some rest := by
  induction p with
  | nil => rfl
  | cons c ps ih => simp [dropPfx, ih]

theorem dropPfx_eq_some (p : List Char) :
    ∀ l r, dropPfx p l = some r → l = p ++ r := by
  induction p with
  | nil =>
    intro l r h
    cases h
    rfl
  | cons c ps ih =>
    intro l r h
    cases l with
    | nil => cases h
    | cons x xs =>
      rw [dropPfx] at h
      by_cases hx : x = c
      · rw [if_pos hx] at h
        rw [hx, List.cons_append, ih xs r h]
      · rw [if_neg hx] at h
        cases h

theorem takeWhile_all_append (p : Char → Bool) (a b : List Char) (ha : ∀ c ∈ a, p c = true) :
    (a ++ b).takeWhile p = a ++ b.takeWhile p := by
  induction a with
  | nil => rfl
  | cons c as ih =>
    rw [List.cons_append, List.takeWhile_cons, if_pos (by simp [ha c (by simp)]),
      ih (fun x hx => ha x (by simp [hx])), List.cons_append]

theorem takeWhile_cons_false (p : Char → Bool) (c : Char) (l : List Char) (h : p c = false) :
    (c :: l).takeWhile p = [] := by
  rw [List.takeWhile_cons, if_neg]
  simp [h]

/- Tuple-order lemmas (Python tuple comparison is the lexicographic
order, with a strict prefix smaller). -/

theorem lexLe_total (x : List Int) : ∀ y, lexLe x y = true ∨ lexLe y x = true := by
  induction x with
  | nil => intro y; left; rfl
  | cons a as ih =>
    intro y
    cases y with
    | nil => right; rfl
    | cons b bs =>
      rcases lt_trichotomy a b with h | h | h
      · left; simp only [lexLe]; rw [if_pos h]
      · subst h
        rcases ih bs with h2 | h2
        · left; simp only [lexLe]; rw [if_neg (lt_irrefl a), if_neg (lt_irrefl a)]; exact h2
        · right; simp only [lexLe]; rw [if_neg (lt_irrefl a), if_neg (lt_irrefl a)]; exact h2
      · right; simp only [lexLe]; rw [if_pos h]

theorem lexLe_trans (x : List Int) :
    ∀ y z, lexLe x y = true → lexLe y z = true → lexLe x z = true := by
  induction x with
  | nil => intro y z _ _; rfl
  | cons a as ih =>
    intro y z h1 h2
    cases y with
    | nil => simp only [lexLe] at h1; exact Bool.noConfusion h1
    | cons b bs =>
      cases z with
      | nil => simp only [lexLe] at h2; exact Bool.noConfusion h2
      | cons c cs =>
        simp only [lexLe] at h1 h2 ⊢
        by_cases hab : a < b
        · by_cases hbc : b < c
          · rw [if_pos (lt_trans hab hbc)]
          · by_cases hcb : c < b
            · rw [if_neg hbc, if_pos hcb] at h2
              cases h2
            · have hbc2 : b = c := le_antisymm (not_lt.mp hcb) (not_lt.mp hbc)
              subst hbc2
              rw [if_pos hab]
        · by_cases hba : b < a
          · rw [if_neg hab, if_pos hba] at h1
            cases h1
          · have hab2 : a = b := le_antisymm (not_lt.mp hba) (not_lt.mp hab)
            subst hab2
            rw [if_neg (lt_irrefl a), if_neg (lt_irrefl a)] at h1
            by_cases hac : a < c
            · rw [if_pos hac]
            · by_cases hca : c < a
              · rw [if_neg hac, if_pos hca] at h2
                cases h2
              · have hac2 : a = c := le_antisymm (not_lt.mp hca) (not_lt.mp hac)
                subst hac2
                rw [if_neg (lt_irrefl a), if_neg (lt_irrefl a)] at h2 ⊢
                exact ih bs cs h1 h2

/- Extraction-loop lemmas. -/

theorem extractFromC_append (dom : List Char) (xs ys : List (List Char)) :
    ∀ st, extractFromC dom st (xs ++ ys) =
      extractFromC dom st xs ++ extractFromC dom (extractStateC dom st xs) ys := by
  induction xs with
  | nil => intro st; rfl
  | cons l ls ih =>
    intro st
    rw [List.cons_append, extractFromC, extractFromC, extractStateC, ih]
    simp [List.append_assoc]

theorem extractStep_pool (dom : List Char) (st : Bool × List Char) (l name : List Char)
    (h : poolOfChars (stripChars l) = some name) :
    extractStepC dom st l = ((true, name.map Char.toLower), none) := by
  unfold extractStepC
  rw [h]

theorem extractStep_host (dom : List Char) (pn l : List Char) (p : List Char × List Char)
    (hp : poolOfChars (stripChars l) = none) (hh : hostOfChars (stripChars l) = some p) :
    extractStepC dom (true, pn) l = ((true, pn), some (p.1, pn ++ ('.') :: dom)) := by
  unfold extractStepC
  rw [hp]
  simp [hh]

theorem extractStep_other (dom : List Char) (st : Bool × List Char) (l : List Char)
    (hp : poolOfChars (stripChars l) = none) (hh : hostOfChars (stripChars l) = none) :
    extractStepC dom st l = ((false, st.2), none) := by
  obtain ⟨b, pn⟩ := st
  unfold extractStepC
  rw [hp]
  cases b
  · simp
  · simp [hh]

theorem extractStep_not_inpool (dom : List Char) (pn l : List Char)
    (hp : poolOfChars (stripChars l) = none) :
    extractStepC dom (false, pn) l = ((false, pn), none) := by
  unfold extractStepC
  rw [hp]
  simp

theorem host_not_pool (l : List Char) (p : List Char × List Char)
    (h : hostOfChars l = some p) : poolOfChars l = none := by
  unfold hostOfChars at h
  cases hd : dropPfx hostPfxLit l with
  | none => rw [hd] at h; cases h
  | some rest =>
    rw [dropPfx_eq_some hostPfxLit l rest hd]
    rfl

theorem extract_no_pool (dom : List Char) (ls : List (List Char))
    (h : ∀ l ∈ ls, poolOfChars (stripChars l) = none) :
    ∀ pn, extractFromC dom (false, pn) ls = [] := by
  induction ls with
  | nil => intro pn; rfl
  | cons l ls2 ih =>
    intro pn
    rw [extractFromC, extractStep_not_inpool dom pn l (h l (by simp))]
    simpa using ih (fun x hx => h x (by simp [hx])) pn

theorem extract_host_run (dom pn : List Char) (hosts : List (List Char))
    (hh : ∀ l ∈ hosts, (hostOfChars (stripChars l)).isSome = true) :
    ∀ rest, extractFromC dom (true, pn) (hosts ++ rest) =
      hosts.filterMap
        (fun l => (hostOfChars (stripChars l)).map (fun p => (p.1, pn ++ ('.') :: dom)))
      ++ extractFromC dom (true, pn) rest := by
  induction hosts with
  | nil => intro rest; rfl
  | cons l ls ih =>
    intro rest
    obtain ⟨p, hp⟩ := Option.isSome_iff_exists.mp (hh l (by simp))
    rw [List.cons_append, extractFromC,
      extractStep_host dom pn l p (host_not_pool _ p hp) hp,
      List.filterMap_cons, hp]
    simp only [Option.toList_some, Option.map_some']
    rw [ih (fun x hx => hh x (by simp [hx])) rest]
    simp [List.append_assoc]

/- Dotted-quad lemmas. -/

theorem isQuadGroup_facts (g : List Char) (h : isQuadGroup g = true) :
    g ≠ [] ∧ ∀ c ∈ g, c.isDigit = true := by
  unfold isQuadGroup at h
  simp only [Bool.and_eq_true, decide_eq_true_eq, List.all_eq_true] at h
  exact ⟨h.1.1, fun c hc => h.2 c hc⟩

theorem isQuadB_parts (l : List Char) (h : isQuadB l = true) :
    ∃ a b c d, splitOnChar ('.') l = [a, b, c, d] ∧
      isQuadGroup a = true ∧ isQuadGroup b = true ∧ isQuadGroup c = true ∧
      isQuadGroup d = true ∧
      l = a ++ ('.') :: (b ++ ('.') :: (c ++ ('.') :: d)) := by
  unfold isQuadB at h
  split at h
  next a b c d heq =>
    simp only [Bool.and_eq_true] at h
    refine ⟨a, b, c, d, heq, h.1.1.1, h.1.1.2, h.1.2, h.2, ?_⟩
    have hj := joinChar_splitOnChar ('.') l
    rw [heq] at hj
    have hshape : joinChar ('.') [a, b, c, d] =
        a ++ ('.') :: (b ++ ('.') :: (c ++ ('.') :: d)) := rfl
    rw [hshape] at hj
    exact hj.symm
  next => exact Bool.noConfusion h

theorem isQuadB_chars (l : List Char) (h : isQuadB l = true) :
    ∀ c ∈ l, c.isDigit = true ∨ c = '.' := by
  obtain ⟨a, b, c, d, _, ha, hb, hc, hd, hl⟩ := isQuadB_parts l h
  intro x hx
  rw [hl] at hx
  have fa := (isQuadGroup_facts a ha).2
  have fb := (isQuadGroup_facts b hb).2
  have fc := (isQuadGroup_facts c hc).2
  have fd := (isQuadGroup_facts d hd).2
  simp only [List.mem_append, List.mem_cons] at hx
  rcases hx with h1 | h1 | h1 | h1 | h1 | h1 | h1
  · exact Or.inl (fa x h1)
  · exact Or.inr h1
  · exact Or.inl (fb x h1)
  · exact Or.inr h1
  · exact Or.inl (fc x h1)
  · exact Or.inr h1
  · exact Or.inl (fd x h1)

theorem isQuadB_ne_nil (l : List Char) (h : isQuadB l = true) : l ≠ [] := by
  obtain ⟨a, _, _, _, _, ha, _, _, _, hl⟩ := isQuadB_parts l h
  obtain ⟨hne, _⟩ := isQuadGroup_facts a ha
  cases a with
  | nil => exact absurd rfl hne
  | cons x xs => rw [hl]; simp

theorem isQuadB_not_ws (l : List Char) (h : isQuadB l = true) :
    ∀ c ∈ l, pyWs c = false := by
  intro c hc
  rcases isQuadB_chars l h c hc with h1 | h1
  · exact digit_not_ws c h1
  · subst h1; decide

theorem isQuadB_head_digit (l : List Char) (h : isQuadB l = true) :
    ∃ c rest, l = c :: rest ∧ c.isDigit = true := by
  obtain ⟨a, b, cc, d, _, ha, _, _, _, hl⟩ := isQuadB_parts l h
  obtain ⟨hne, hdig⟩ := isQuadGroup_facts a ha
  cases a with
  | nil => exact absurd rfl hne
  | cons x xs =>
    exact ⟨x, xs ++ ('.') :: (b ++ ('.') :: (cc ++ ('.') :: d)),
      by rw [hl]; rfl, hdig x (by simp)⟩

theorem isQuadB_key_isSome (l : List Char) (h : isQuadB l = true) :
    (keyOf l).isSome = true := by
  obtain ⟨a, b, c, d, hsplit, _, hb, hc, hd, _⟩ := isQuadB_parts l h
  have fb := isQuadGroup_facts b hb
  have fc := isQuadGroup_facts c hc
  have fd := isQuadGroup_facts d hd
  unfold keyOf
  rw [hsplit]
  obtain ⟨vb, hvb⟩ := Option.isSome_iff_exists.mp (pyIntC_digits_isSome b fb.1 fb.2)
  obtain ⟨vc, hvc⟩ := Option.isSome_iff_exists.mp (pyIntC_digits_isSome c fc.1 fc.2)
  obtain ⟨vd, hvd⟩ := Option.isSome_iff_exists.mp (pyIntC_digits_isSome d fd.1 fd.2)
  have hmap : ([a, b, c, d].drop 1).map pyIntC = [pyIntC b, pyIntC c, pyIntC d] := rfl
  rw [hmap, hvb, hvc, hvd]
  rfl

/- Sorting wrappers. -/

theorem sortEntriesC_some (l : List EntryC) (h : ∀ e ∈ l, (keyOf e.1).isSome = true) :
    sortEntriesC l = some (List.insertionSort entryRel l) := by
  unfold sortEntriesC
  rw [if_pos (List.all_eq_true.mpr h)]

theorem insertionSort_entryRel_sorted (l : List EntryC) :
    List.Sorted entryRel (List.insertionSort entryRel l) := by
  haveI : IsTotal EntryC entryRel := ⟨fun a b => lexLe_total _ _⟩
  haveI : IsTrans EntryC entryRel := ⟨fun _ _ _ h1 h2 => lexLe_trans _ _ _ h1 h2⟩
  exact List.sorted_insertionSort entryRel l

theorem keyOf_drop_first (g rest : List Char) (hg : ∀ c ∈ g, c ≠ '.') :
    keyOf (g ++ ('.') :: rest) = seqOption ((splitOnChar ('.') rest).map pyIntC) := by
  unfold keyOf
  rw [splitOnChar_append_sep ('.') g rest hg, List.drop_one, List.tail_cons]

/- Parsing lemmas. -/

theorem parseLineC_comment (rest : List Char) : parseLineC (('#') :: rest) = none := by
  unfold parseLineC
  rw [if_neg]
  intro h
  have hsw : startsWithC commentPfxLit (('#') :: rest) = true := rfl
  rw [hsw] at h
  exact Bool.noConfusion h.2

theorem parseLinesC_append (xs ys : List (List Char)) :
    parseLinesC (xs ++ ys) = parseLinesC xs ++ parseLinesC ys := by
  induction xs with
  | nil => rfl
  | cons l ls ih => rw [List.cons_append, parseLinesC, parseLinesC, ih, List.append_assoc]

theorem parseLineC_entry (a b : List Char) (hna : a ≠ []) (hnb : b ≠ [])
    (hwa : ∀ c ∈ a, pyWs c = false) (hwb : ∀ c ∈ b, pyWs c = false)
    (hhead : a.head? ≠ some ('#')) :
    parseLineC (a ++ (' ') :: b) = some (b, a) := by
  have hcond : stripChars (a ++ (' ') :: b) ≠ [] ∧
      startsWithC commentPfxLit (a ++ (' ') :: b) = false := by
    cases a with
    | nil => exact absurd rfl hna
    | cons c as =>
      constructor
      · exact stripChars_ne_nil _ c (by simp) (hwa c (by simp))
      · have hc : c ≠ '#' := fun e => hhead (by rw [List.head?_cons, e])
        have hlit : commentPfxLit = [('#')] := rfl
        simp [startsWithC, hlit, dropPfx, hc]
  unfold parseLineC
  rw [if_pos hcond, pyWords_pair a b hna hnb hwa hwb]

/- Conditions on one entry that survive the textual round trip: the ip
is nonempty, whitespace-free and not starting with the comment mark;
the hostname is nonempty and whitespace-free. -/
def entryTokensOk (e : EntryC) : Prop :=
  e.1 ≠ [] ∧ (∀ c ∈ e.1, pyWs c = false) ∧ e.1.head? ≠ some ('#') ∧
  e.2 ≠ [] ∧ (∀ c ∈ e.2, pyWs c = false)

theorem parseLinesC_entries (s : List EntryC) (hs : ∀ e ∈ s, entryTokensOk e) :
    parseLinesC (s.map entryLineC) = s.map (fun e => (e.2, e.1)) := by
  induction s with
  | nil => rfl
  | cons e t ih =>
    obtain ⟨h1, h2, h3, h4, h5⟩ := hs e (by simp)
    rw [List.map_cons, parseLinesC]
    have hline : parseLineC (entryLineC e) = some (e.2, e.1) :=
      parseLineC_entry e.1 e.2 h1 h4 h2 h5 h3
    rw [hline, ih (fun x hx => hs x (by simp [hx])), List.map_cons]
    rfl

theorem splitLinesC_render (s : List EntryC) (now : List Char)
    (hs : ∀ e ∈ s, entryTokensOk e)
    (hnow : ∀ c ∈ now, lineBreakChar c = false) :
    splitLinesC (headerC now ++ joinChar ('\n') (s.map entryLineC)) =
      ("# Auto created host file ").data ::
      ("# Generated from switch dhcp configuration ").data ::
      (("# Generated on ").data ++ now ++ [(' ')]) ::
      s.map entryLineC := by
  have hshape : headerC now ++ joinChar ('\n') (s.map entryLineC) =
      ("# Auto created host file ").data ++ ('\n') ::
      (("# Generated from switch dhcp configuration ").data ++ ('\n') ::
      ((("# Generated on ").data ++ now ++ [(' ')]) ++ ('\n') ::
      joinChar ('\n') (s.map entryLineC))) := by
    simp only [headerC, headerPre, headerPost, List.append_assoc]
    rfl
  rw [hshape]
  rw [splitLinesC_append_nl _ _ (by decide)]
  rw [splitLinesC_append_nl _ _ (by decide)]
  rw [splitLinesC_append_nl _ _ ?hbrk]
  case hbrk =>
    intro c hc
    simp only [List.append_assoc, List.mem_append, List.mem_singleton] at hc
    rcases hc with h1 | h1 | h1
    · revert h1
      revert c
      decide
    · exact hnow c h1
    · subst h1; decide
  rw [splitLinesC_joinChar]
  intro l hl
  obtain ⟨e, he, rfl⟩ := List.mem_map.mp hl
  obtain ⟨h1, h2, _, _, h5⟩ := hs e he
  constructor
  · unfold entryLineC
    simp
  · unfold entryLineC
    intro c hc
    simp only [List.mem_append, List.mem_cons] at hc
    rcases hc with hc | hc | hc
    · exact ws_of_not_break_false c (h2 c hc)
    · subst hc; decide
    · exact ws_of_not_break_false c (h5 c hc)

/- The core round-trip fact: rendering sorted entries after the header
with empty existing content, then parsing, returns exactly the
generated (hostname, ip) pairs in order. -/
theorem parseC_render (s : List EntryC) (now : List Char)
    (hs : ∀ e ∈ s, entryTokensOk e)
    (hnow : ∀ c ∈ now, lineBreakChar c = false) :
    parseC (headerC now ++ joinChar ('\n') (s.map entryLineC)) =
      s.map (fun e => (e.2, e.1)) := by
  unfold parseC
  rw [splitLinesC_render s now hs hnow]
  rw [parseLinesC, parseLinesC, parseLinesC]
  have hc1 : parseLineC (("# Auto created host file ").data) = none := parseLineC_comment _
  have hc2 : parseLineC (("# Generated from switch dhcp configuration ").data) = none :=
    parseLineC_comment _
  have hc3 : parseLineC ((("# Generated on ").data ++ now ++ [(' ')])) = none :=
    parseLineC_comment _
  rw [hc1, hc2, hc3, parseLinesC_entries s hs]
  rfl

/- Fortinet transcript lemmas. -/

theorem parseDigits_not_digit_head (c : Char) (hc : c.isDigit = false) (l : List Char) :
    parseDigits (c :: l) = none := by
  unfold parseDigits
  rw [if_neg]
  intro h
  have := List.all_eq_true.mp h.2 c (by simp)
  rw [hc] at this
  cases this

theorem editIdxC_of_dropPfx (cmd rest : List Char) (h : dropPfx editPfxLit cmd = some rest) :
    editIdxC cmd = parseDigits (rest.takeWhile (fun c => c != '\n')) := by
  unfold editIdxC
  rw [h]

theorem editIdxC_recCmd (ty kw hostname ip : List Char) (idx : Nat) :
    editIdxC (recCmdC ty kw hostname ip idx) = some idx := by
  have hd : dropPfx editPfxLit (recCmdC ty kw hostname ip idx) =
      some (pyStrNatChars idx ++ ('\n') ::
        (setTypePfxLit ++ ty ++
          ('\n') :: (("set hostname \"").data ++ hostname ++ ('"') ::
          ('\n') :: (kw ++ ip ++ ('\n') :: ("next").data)))) := by
    unfold recCmdC
    have hshape : ("edit ").data ++ pyStrNatChars idx ++ ('\n') ::
        (setTypePfxLit ++ ty ++
          ('\n') :: (("set hostname \"").data ++ hostname ++ ('"') ::
          ('\n') :: (kw ++ ip ++ ('\n') :: ("next").data))) =
        editPfxLit ++ (pyStrNatChars idx ++ ('\n') ::
        (setTypePfxLit ++ ty ++
          ('\n') :: (("set hostname \"").data ++ hostname ++ ('"') ::
          ('\n') :: (kw ++ ip ++ ('\n') :: ("next").data)))) := by
      simp only [editPfxLit, List.append_assoc]
    rw [hshape]
    exact dropPfx_append _ _
  rw [editIdxC_of_dropPfx _ _ hd]
  rw [takeWhile_all_append _ _ _ ?hdig]
  case hdig =>
    intro c hc
    have := digit_ne c (pyStrNatChars_all_digit idx c hc) ('\n') (by decide)
    simp [this]
  rw [takeWhile_cons_false _ ('\n') _ (by simp), List.append_nil]
  exact parseDigits_pyStrNat idx

theorem editIdxC_fwd (hostname ip : List Char) (idx : Nat) :
    editIdxC (fwdCmdC hostname ip idx) = some idx := by
  unfold fwdCmdC
  split <;> exact editIdxC_recCmd _ _ _ _ _

theorem editIdxC_ptr (hostname ip : List Char) (idx : Nat) :
    editIdxC (ptrCmdC hostname ip idx) = some idx := by
  unfold ptrCmdC
  split <;> exact editIdxC_recCmd _ _ _ _ _

theorem editIdxC_zone_edit (db tail : List Char) :
    editIdxC (("edit \"").data ++ (db ++ tail)) = none := by
  have hd : dropPfx editPfxLit (("edit \"").data ++ (db ++ tail)) =
      some (('"') :: (db ++ tail)) := rfl
  rw [editIdxC_of_dropPfx _ _ hd, List.takeWhile_cons, if_pos (by decide)]
  exact parseDigits_not_digit_head ('"') (by decide) _

theorem filterMap_editIdx_entries (entries : List EntryC) :
    ∀ i, (dnsEntryCmdsC entries i).filterMap editIdxC = List.range' i (2 * entries.length) := by
  induction entries with
  | nil => intro i; rfl
  | cons e t ih =>
    intro i
    rw [dnsEntryCmdsC, List.filterMap_cons, List.filterMap_cons,
      editIdxC_fwd e.1 e.2 i, editIdxC_ptr e.1 e.2 (i + 1), ih (i + 2)]
    have h2 : 2 * (e :: t).length = 2 * t.length + 1 + 1 := by
      rw [List.length_cons]; ring
    rw [h2, List.range'_succ, List.range'_succ]

theorem transcript_editIdx (cfg : FortinetConfig) (dom : List Char) (entries : List EntryC) :
    (transcriptC cfg dom entries).filterMap editIdxC = List.range' 1 (2 * entries.length) := by
  unfold transcriptC
  rw [List.filterMap_cons, List.filterMap_cons, List.filterMap_cons, List.filterMap_cons,
    List.filterMap_cons, List.filterMap_append]
  have h1 : editIdxC (("config system dns-database").data) = none := rfl
  have h2 : editIdxC (("delete \"").data ++ cfg.base_name.data ++ ("\"").data) = none := rfl
  have h3 : editIdxC (("edit \"").data ++ cfg.base_name.data ++ ("\"").data) = none := by
    have hshape : ("edit \"").data ++ cfg.base_name.data ++ ("\"").data =
        ("edit \"").data ++ (cfg.base_name.data ++ ("\"").data) := by
      simp [List.append_assoc]
    rw [hshape]
    exact editIdxC_zone_edit _ _
  have h4 : editIdxC (megaCmdC cfg dom) = none := rfl
  have h5 : editIdxC (("config dns-entry").data) = none := rfl
  have h6 : List.filterMap editIdxC [("end\nnext\nend").data] = [] := rfl
  rw [h1, h2, h3, h4, h5, h6, filterMap_editIdx_entries entries 1]
  simp

/- Line structure of one record command. -/

theorem splitLinesC_recCmd (ty kw hostname ip : List Char) (idx : Nat)
    (hty : ∀ c ∈ ty, lineBreakChar c = false)
    (hkw : ∀ c ∈ kw, lineBreakChar c = false)
    (hh : ∀ c ∈ hostname, lineBreakChar c = false)
    (hip : ∀ c ∈ ip, lineBreakChar c = false) :
    splitLinesC (recCmdC ty kw hostname ip idx) =
      [("edit ").data ++ pyStrNatChars idx,
       setTypePfxLit ++ ty,
       ("set hostname \"").data ++ hostname ++ [('"')],
       kw ++ ip,
       ("next").data] := by
  have hshape : recCmdC ty kw hostname ip idx =
      (("edit ").data ++ pyStrNatChars idx) ++ ('\n') ::
      ((setTypePfxLit ++ ty) ++ ('\n') ::
      ((("set hostname \"").data ++ hostname ++ [('"')]) ++ ('\n') ::
      ((kw ++ ip) ++ ('\n') :: ("next").data))) := by
    simp [recCmdC, List.append_assoc]
  rw [hshape]
  rw [splitLinesC_append_nl _ _ ?h1]
  case h1 =>
    intro c hc
    rcases List.mem_append.mp hc with h1 | h1
    · exact (by decide : ∀ x ∈ ("edit ").data, lineBreakChar x = false) c h1
    · exact digit_not_break c (pyStrNatChars_all_digit idx c h1)
  rw [splitLinesC_append_nl _ _ ?h2]
  case h2 =>
    intro c hc
    rcases List.mem_append.mp hc with h1 | h1
    · exact (by decide : ∀ x ∈ setTypePfxLit, lineBreakChar x = false) c h1
    · exact hty c h1
  rw [splitLinesC_append_nl _ _ ?h3]
  case h3 =>
    intro c hc
    simp only [List.append_assoc, List.mem_append, List.mem_singleton] at hc
    rcases hc with h1 | h1 | h1
    · exact (by decide : ∀ x ∈ ("set hostname \"").data, lineBreakChar x = false) c h1
    · exact hh c h1
    · subst h1; decide
  rw [splitLinesC_append_nl _ _ ?h4]
  case h4 =>
    intro c hc
    rcases List.mem_append.mp hc with h1 | h1
    · exact hkw c h1
    · exact hip c h1
  rw [splitLinesC_no_break _ (by decide), if_neg (by decide)]

theorem cmdTypesC_recCmd (ty kw hostname ip : List Char) (idx : Nat)
    (hty : ∀ c ∈ ty, lineBreakChar c = false)
    (hkw : ∀ c ∈ kw, lineBreakChar c = false)
    (hh : ∀ c ∈ hostname, lineBreakChar c = false)
    (hip : ∀ c ∈ ip, lineBreakChar c = false)
    (hkwt : dropPfx setTypePfxLit (kw ++ ip) = none) :
    cmdTypesC (recCmdC ty kw hostname ip idx) = [ty] := by
  unfold cmdTypesC
  rw [splitLinesC_recCmd ty kw hostname ip idx hty hkw hh hip]
  rw [List.filterMap_cons, List.filterMap_cons, List.filterMap_cons, List.filterMap_cons,
    List.filterMap_cons]
  have h1 : dropPfx setTypePfxLit (("edit ").data ++ pyStrNatChars idx) = none := rfl
  have h2 : dropPfx setTypePfxLit (setTypePfxLit ++ ty) = some ty := dropPfx_append _ _
  have h3 : dropPfx setTypePfxLit (("set hostname \"").data ++ hostname ++ [('"')]) =
      none := rfl
  have h5 : dropPfx setTypePfxLit (("next").data) = none := rfl
  rw [h1, h2, h3, hkwt, h5]
  rfl

theorem cmdAddrKindsC_recCmd_ip (ty hostname ip : List Char) (idx : Nat)
    (hty : ∀ c ∈ ty, lineBreakChar c = false)
    (hh : ∀ c ∈ hostname, lineBreakChar c = false)
    (hip : ∀ c ∈ ip, lineBreakChar c = false) :
    cmdAddrKindsC (recCmdC ty setIpPfxLit hostname ip idx) = [("ip").data] := by
  unfold cmdAddrKindsC
  rw [splitLinesC_recCmd ty setIpPfxLit hostname ip idx hty (by decide) hh hip]
  rw [List.filterMap_cons, List.filterMap_cons, List.filterMap_cons, List.filterMap_cons,
    List.filterMap_cons]
  have h2v : dropPfx setIpv6PfxLit (setTypePfxLit ++ ty) = none := rfl
  have h2i : dropPfx setIpPfxLit (setTypePfxLit ++ ty) = none := rfl
  have h3v : dropPfx setIpv6PfxLit (("set hostname \"").data ++ hostname ++ [('"')]) =
      none := rfl
  have h3i : dropPfx setIpPfxLit (("set hostname \"").data ++ hostname ++ [('"')]) =
      none := rfl
  have h4v : dropPfx setIpv6PfxLit (setIpPfxLit ++ ip) = none := rfl
  have h4i : dropPfx setIpPfxLit (setIpPfxLit ++ ip) = some ip := dropPfx_append _ _
  simp only [h2v, h2i, h3v, h3i, h4v, h4i]
  rfl

theorem cmdAddrKindsC_recCmd_ipv6 (ty hostname ip : List Char) (idx : Nat)
    (hty : ∀ c ∈ ty, lineBreakChar c = false)
    (hh : ∀ c ∈ hostname, lineBreakChar c = false)
    (hip : ∀ c ∈ ip, lineBreakChar c = false) :
    cmdAddrKindsC (recCmdC ty setIpv6PfxLit hostname ip idx) = [("ipv6").data] := by
  unfold cmdAddrKindsC
  rw [splitLinesC_recCmd ty setIpv6PfxLit hostname ip idx hty (by decide) hh hip]
  rw [List.filterMap_cons, List.filterMap_cons, List.filterMap_cons, List.filterMap_cons,
    List.filterMap_cons]
  have h2v : dropPfx setIpv6PfxLit (setTypePfxLit ++ ty) = none := rfl
  have h2i : dropPfx setIpPfxLit (setTypePfxLit ++ ty) = none := rfl
  have h3v : dropPfx setIpv6PfxLit (("set hostname \"").data ++ hostname ++ [('"')]) =
      none := rfl
  have h3i : dropPfx setIpPfxLit (("set hostname \"").data ++ hostname ++ [('"')]) =
      none := rfl
  have h4v : dropPfx setIpv6PfxLit (setIpv6PfxLit ++ ip) = some ip := dropPfx_append _ _
  simp only [h2v, h2i, h3v, h3i, h4v]
  rfl

theorem entryTypes_ipv4 (hostname ip : List Char) (idx : Nat)
    (hh : ∀ c ∈ hostname, lineBreakChar c = false)
    (hip : ∀ c ∈ ip, lineBreakChar c = false)
    (hv : pyIpv4MatchC ip = true) :
    entryTypesC hostname ip idx = [("A").data, ("PTR").data] := by
  unfold entryTypesC fwdCmdC ptrCmdC
  rw [if_pos hv, if_pos hv,
    cmdTypesC_recCmd (("A").data) setIpPfxLit hostname ip idx (by decide) (by decide) hh hip rfl,
    cmdTypesC_recCmd (("PTR").data) setIpPfxLit hostname ip (idx + 1) (by decide) (by decide)
      hh hip rfl]
  rfl

theorem entryTypes_ipv6 (hostname ip : List Char) (idx : Nat)
    (hh : ∀ c ∈ hostname, lineBreakChar c = false)
    (hip : ∀ c ∈ ip, lineBreakChar c = false)
    (hv : pyIpv4MatchC ip = false) :
    entryTypesC hostname ip idx = [("AAAA").data, ("PTR_V6").data] := by
  unfold entryTypesC fwdCmdC ptrCmdC
  rw [if_neg (by simp [hv]), if_neg (by simp [hv]),
    cmdTypesC_recCmd (("AAAA").data) setIpv6PfxLit hostname ip idx (by decide) (by decide)
      hh hip rfl,
    cmdTypesC_recCmd (("PTR_V6").data) setIpv6PfxLit hostname ip (idx + 1) (by decide)
      (by decide) hh hip rfl]
  rfl

theorem entryAddrKinds_ipv4 (hostname ip : List Char) (idx : Nat)
    (hh : ∀ c ∈ hostname, lineBreakChar c = false)
    (hip : ∀ c ∈ ip, lineBreakChar c = false)
    (hv : pyIpv4MatchC ip = true) :
    entryAddrKindsC hostname ip idx = [("ip").data, ("ip").data] := by
  unfold entryAddrKindsC fwdCmdC ptrCmdC
  rw [if_pos hv, if_pos hv,
    cmdAddrKindsC_recCmd_ip _ _ _ _ (by decide) hh hip,
    cmdAddrKindsC_recCmd_ip _ _ _ _ (by decide) hh hip]
  rfl

theorem entryAddrKinds_ipv6 (hostname ip : List Char) (idx : Nat)
    (hh : ∀ c ∈ hostname, lineBreakChar c = false)
    (hip : ∀ c ∈ ip, lineBreakChar c = false)
    (hv : pyIpv4MatchC ip = false) :
    entryAddrKindsC hostname ip idx = [("ipv6").data, ("ipv6").data] := by
  unfold entryAddrKindsC fwdCmdC ptrCmdC
  rw [if_neg (by simp [hv]), if_neg (by simp [hv]),
    cmdAddrKindsC_recCmd_ipv6 _ _ _ _ (by decide) hh hip,
    cmdAddrKindsC_recCmd_ipv6 _ _ _ _ (by decide) hh hip]
  rfl

theorem pyIpv4_eq_quad_of_no_nl (ip : List Char) (h : ∀ c ∈ ip, c ≠ '\n') :
    pyIpv4MatchC ip = isQuadB ip := by
  have hlast : decide (ip.getLast? = some ('\n')) = false := by
    apply decide_eq_false
    intro e
    obtain ⟨hne, heq⟩ := List.mem_getLast?_eq_getLast (Option.mem_def.mpr e)
    exact h ('\n') (heq ▸ List.getLast_mem hne) rfl
  simp [pyIpv4MatchC, hlast]

/- Remaining general helpers. -/

theorem splitOnChar_joinChar (sep : Char) (ls : List (List Char)) (hne : ls ≠ [])
    (h : ∀ l ∈ ls, ∀ c ∈ l, c ≠ sep) :
    splitOnChar sep (joinChar sep ls) = ls := by
  induction ls with
  | nil => exact absurd rfl hne
  | cons a t ih =>
    cases t with
    | nil =>
      have hj : joinChar sep [a] = a := rfl
      rw [hj, splitOnChar_no_sep sep a (h a (by simp))]
    | cons b t2 =>
      have hj : joinChar sep (a :: b :: t2) = a ++ sep :: joinChar sep (b :: t2) := rfl
      rw [hj, splitOnChar_append_sep sep a _ (h a (by simp)),
        ih (by simp) (fun x hx => h x (List.mem_cons_of_mem a hx))]

theorem filterMap_length_of_isSome {α β : Type} (f : α → Option β) (l : List α)
    (h : ∀ x ∈ l, (f x).isSome = true) : (l.filterMap f).length = l.length := by
  induction l with
  | nil => rfl
  | cons x t ih =>
    obtain ⟨v, hv⟩ := Option.isSome_iff_exists.mp (h x (by simp))
    rw [List.filterMap_cons, hv, List.length_cons, List.length_cons,
      ih (fun y hy => h y (by simp [hy]))]

theorem parseLineC_not_two (l : List Char) (h : (pyWords l).length ≠ 2) :
    parseLineC l = none := by
  unfold parseLineC
  split
  next hcond =>
    cases hw : pyWords l with
    | nil => rfl
    | cons a t =>
      cases t with
      | nil => rfl
      | cons b t2 =>
        cases t2 with
        | nil => exact absurd (by rw [hw]; rfl : (pyWords l).length = 2) h
        | cons c t3 => rfl
  next => rfl

theorem parseLinesC_filter_two (ls : List (List Char)) :
    parseLinesC ls = parseLinesC (ls.filter (fun l => (pyWords l).length == 2)) := by
  induction ls with
  | nil => rfl
  | cons l t ih =>
    rw [List.filter_cons]
    by_cases hl : ((pyWords l).length == 2) = true
    · rw [if_pos hl, parseLinesC, parseLinesC, ih]
    · rw [if_neg hl, parseLinesC, parseLineC_not_two l (by simpa using hl), ih]
      rfl

theorem parseLinesC_eq_filterMap (ls : List (List Char)) :
    parseLinesC ls = ls.filterMap parseLineC := by
  induction ls with
  | nil => rfl
  | cons l t ih =>
    rw [parseLinesC, List.filterMap_cons, ih]
    cases parseLineC l <;> rfl

/- ==================================================================
Claim theorems. -/

/-- C8: Rendering is a pure, deterministic function: for equal raw DHCP
config text, existing content, DNS domain and timestamp, two
invocations of convert_to_host_file produce byte-identical documents. -/
theorem c8_render_deterministic (a b c n a2 b2 c2 n2 : String)
    (h1 : a = a2) (h2 : b = b2) (h3 : c = c2) (h4 : n = n2) :
    convert_to_host_file a b c n = convert_to_host_file a2 b2 c2 n2 := by
  rw [h1, h2, h3, h4]

theorem c8_render_deterministic_witness :
    convert_to_host_file ("cfg") ("old") ("lan") ("2024-01-01 00:00") =
      convert_to_host_file ("cfg") ("old") ("lan") ("2024-01-01 00:00") :=
  c8_render_deterministic ("cfg") ("old") ("lan") ("2024-01-01 00:00")
    ("cfg") ("old") ("lan") ("2024-01-01 00:00") rfl rfl rfl rfl

/-- C9: parse_host_file silently drops every non-empty, non-comment
line that does not split into exactly two whitespace-separated tokens:
removing all lines whose token count is not two leaves the parse
result unchanged, and the parse is exactly the per-line filterMap, so
every returned entry comes from a line of exactly two tokens. -/
theorem c9_parse_two_token_lines_only (content : List Char) :
    parseC content =
      parseLinesC ((splitLinesC content).filter (fun l => (pyWords l).length == 2))
    ∧ parseC content = (splitLinesC content).filterMap parseLineC :=
  ⟨parseLinesC_filter_two (splitLinesC content), parseLinesC_eq_filterMap (splitLinesC content)⟩

/-- C10: when the Fortinet configuration omits primary_dns or contact,
configure_fortinet_dns substitutes the defaults a.root-servers.net and
hostmaster@webserver.com, sends them in the zone-setup command (the
fourth command, set domain/ttl/primary-name/contact), and the whole
transcript is otherwise unchanged by the omission. -/
theorem c10_fortinet_defaults (cfg : FortinetConfig) (dnsdomain : String)
    (dns_entries : List (String × String)) :
    configure_fortinet_dns { cfg with primary_dns := none } dnsdomain dns_entries =
      configure_fortinet_dns { cfg with primary_dns := some defaultPrimary } dnsdomain
        dns_entries
    ∧ configure_fortinet_dns { cfg with contact := none } dnsdomain dns_entries =
      configure_fortinet_dns { cfg with contact := some defaultContact } dnsdomain dns_entries
    ∧ (configure_fortinet_dns { cfg with primary_dns := none, contact := none } dnsdomain
        dns_entries)[3]? =
      some (String.mk (("set domain \"").data ++ dnsdomain.data ++ ("\"\nset ttl ").data ++
        pyStrNatChars cfg.ttl ++ ("\nset primary-name \"").data ++ defaultPrimary.data ++
        ("\"\nset contact \"").data ++ defaultContact.data ++ ("\"").data)) :=
  ⟨rfl, rfl, rfl⟩

/-- C4: for M entries the Provisioning Driver issues exactly 2M
per-record edit commands, whose indices are exactly the integers 1
through 2M in ascending order (the shared counter is never reset):
the edit indices recoverable from the transcript form the range
1..2M. -/
theorem c4_edit_indices (cfg : FortinetConfig) (dnsdomain : String)
    (dns_entries : List (String × String)) :
    (configure_fortinet_dns cfg dnsdomain dns_entries).filterMap editIdxOf =
      List.range' 1 (2 * dns_entries.length) := by
  unfold configure_fortinet_dns
  rw [List.filterMap_map]
  have hfn : (editIdxOf ∘ String.mk) = editIdxC := funext (fun l => rfl)
  rw [hfn, transcript_editIdx, List.length_map]

/-- C5 counterexample: the address string of "1.2.3.4" followed by a
newline does not match four dot-separated 1-3-digit groups, yet the
driver emits record types A then PTR for it (Python's $ anchor also
matches just before a trailing newline), not the AAAA/PTR_V6 pair the
claim requires for any non-matching address string. -/
theorem c5_counterexample :
    specIpv4Shape ("1.2.3.4\n") = false ∧
    entry_record_types ("h") ("1.2.3.4\n") 1 = [("A"), ("PTR")] := by
  constructor
  · rfl
  · rfl

/-- C5 (amended): for every DNS entry whose hostname and address
contain no line-break character, an address matching four dot-separated
1-3-digit groups yields a forward record of type A then a reverse
record of type PTR, both via set ip, and any other such address yields
AAAA then PTR_V6 via set ipv6; in particular 192.168.1.1 gives A, PTR
and fe80::1 gives AAAA, PTR_V6. -/
theorem c5_record_type_branch (hostname ip : String) (idx : Nat)
    (hh : ∀ c ∈ hostname.data, lineBreakChar c = false)
    (hip : ∀ c ∈ ip.data, lineBreakChar c = false) :
    (specIpv4Shape ip = true →
      entry_record_types hostname ip idx = [("A"), ("PTR")] ∧
      entry_addr_keywords hostname ip idx = [("ip"), ("ip")])
    ∧ (specIpv4Shape ip = false →
      entry_record_types hostname ip idx = [("AAAA"), ("PTR_V6")] ∧
      entry_addr_keywords hostname ip idx = [("ipv6"), ("ipv6")])
    ∧ entry_record_types ("host1") ("192.168.1.1") 1 = [("A"), ("PTR")]
    ∧ entry_record_types ("host1") ("fe80::1") 1 = [("AAAA"), ("PTR_V6")] := by
  have hnl : ∀ c ∈ ip.data, c ≠ '\n' := by
    intro c hc e
    have hb := hip c hc
    subst e
    exact absurd hb (by decide)
  have heq := pyIpv4_eq_quad_of_no_nl ip.data hnl
  refine ⟨?_, ?_, rfl, rfl⟩
  · intro hs
    have hv : pyIpv4MatchC ip.data = true := by
      rw [heq]
      exact hs
    constructor
    · unfold entry_record_types
      rw [entryTypes_ipv4 _ _ idx hh hip hv]
      rfl
    · unfold entry_addr_keywords
      rw [entryAddrKinds_ipv4 _ _ idx hh hip hv]
      rfl
  · intro hs
    have hv : pyIpv4MatchC ip.data = false := by
      rw [heq]
      exact hs
    constructor
    · unfold entry_record_types
      rw [entryTypes_ipv6 _ _ idx hh hip hv]
      rfl
    · unfold entry_addr_keywords
      rw [entryAddrKinds_ipv6 _ _ idx hh hip hv]
      rfl

theorem c5_record_type_branch_witness :
    entry_record_types ("host1") ("192.168.1.1") 5 = [("A"), ("PTR")] :=
  ((c5_record_type_branch ("host1") ("192.168.1.1") 5 (by decide) (by decide)).1
    (by decide)).1

/-- C7 counterexample: every line of this input matches the expected
grammar, yet convert_to_host_file raises rather than producing a
document (modelled as none): the extracted address "1.a.2" makes int()
raise a ValueError inside the sort key. -/
theorem c7_counterexample :
    convert_to_host_file ("ip dhcp pool p\nhost 1.a.2 m") ("") ("d") ("t") = none := rfl

/-- C7 (amended): extraction itself never fails and lines not matching
the pool/host grammar are silently skipped, but rendering succeeds
exactly when every extracted address' components after the first dot
parse as integers; on input with no pool-declaration line the result is
a document with zero generated entries (header plus existing content,
not an error). -/
theorem c7_error_handling (raw existing dom now : String) :
    ((convert_to_host_file raw existing dom now).isSome = true ↔
      ∀ e ∈ extract_records raw.data dom.data, (keyOf e.1).isSome = true)
    ∧ ((∀ l ∈ splitOnChar ('\n') raw.data, poolOfChars (stripChars l) = none) →
      convert_to_host_file raw existing dom now =
        some (String.mk (headerC now.data ++ existing.data))) := by
  constructor
  · have hmap : (convert_to_host_file raw existing dom now).isSome =
        (sortEntriesC (extract_records raw.data dom.data)).isSome := by
      unfold convert_to_host_file convertC renderHostDocC
      cases sortEntriesC (extract_records raw.data dom.data) <;> rfl
    rw [hmap]
    unfold sortEntriesC
    by_cases hc : (extract_records raw.data dom.data).all (fun e => (keyOf e.1).isSome) = true
    · rw [if_pos hc]
      exact ⟨fun _ => List.all_eq_true.mp hc, fun _ => rfl⟩
    · rw [if_neg hc]
      exact ⟨fun h => Bool.noConfusion h, fun h => absurd (List.all_eq_true.mpr h) hc⟩
  · intro hp
    unfold convert_to_host_file convertC extract_records renderHostDocC
    rw [show extractFromC dom.data (false, []) (splitOnChar ('\n') raw.data) = [] from
      extract_no_pool dom.data _ hp []]
    simp [sortEntriesC, List.insertionSort, joinChar]

theorem c7_error_handling_witness :
    convert_to_host_file ("no pools here") ("abc") ("d") ("t") =
      some (String.mk (headerC ("t").data ++ ("abc").data)) :=
  (c7_error_handling ("no pools here") ("abc") ("d") ("t")).2 (by decide)

/-- C2: for every set of extracted records whose sort keys are defined,
the renderer's sort step succeeds, its output is sorted ascending by
the numeric tuple of the address components after the first octet, and
is a permutation of the input; and sorting is independent of the first
octet: for all first octets x, y, z, the records x.0.2.5, y.0.1.9,
z.1.0.1 sort as y.0.1.9, x.0.2.5, z.1.0.1. -/
theorem c2_sorted_by_last_three_octets :
    (∀ entries : List EntryC, (∀ e ∈ entries, (keyOf e.1).isSome = true) →
      ∃ s, sortEntriesC entries = some s ∧ List.Sorted entryRel s ∧ s.Perm entries)
    ∧ (∀ (x y z : Nat) (h1 h2 h3 : List Char),
      sortEntriesC [(pyStrNatChars x ++ ('.') :: ("0.2.5").data, h1),
                    (pyStrNatChars y ++ ('.') :: ("0.1.9").data, h2),
                    (pyStrNatChars z ++ ('.') :: ("1.0.1").data, h3)] =
        some [(pyStrNatChars y ++ ('.') :: ("0.1.9").data, h2),
              (pyStrNatChars x ++ ('.') :: ("0.2.5").data, h1),
              (pyStrNatChars z ++ ('.') :: ("1.0.1").data, h3)]) := by
  constructor
  · intro entries h
    exact ⟨List.insertionSort entryRel entries, sortEntriesC_some entries h,
      insertionSort_entryRel_sorted entries, List.perm_insertionSort entryRel entries⟩
  · intro x y z h1 h2 h3
    have hnd : ∀ (m : Nat), ∀ c ∈ pyStrNatChars m, c ≠ '.' :=
      fun m c hc => digit_ne c (pyStrNatChars_all_digit m c hc) ('.') (by decide)
    have k1 : keyOf (pyStrNatChars x ++ ('.') :: ("0.2.5").data) =
        some [(0 : Int), 2, 5] := by
      rw [keyOf_drop_first _ _ (hnd x)]
      rfl
    have k2 : keyOf (pyStrNatChars y ++ ('.') :: ("0.1.9").data) =
        some [(0 : Int), 1, 9] := by
      rw [keyOf_drop_first _ _ (hnd y)]
      rfl
    have k3 : keyOf (pyStrNatChars z ++ ('.') :: ("1.0.1").data) =
        some [(1 : Int), 0, 1] := by
      rw [keyOf_drop_first _ _ (hnd z)]
      rfl
    have hr23 : entryRel (pyStrNatChars y ++ ('.') :: ("0.1.9").data, h2)
        (pyStrNatChars z ++ ('.') :: ("1.0.1").data, h3) := by
      show lexLe (keyD (pyStrNatChars y ++ ('.') :: ("0.1.9").data))
        (keyD (pyStrNatChars z ++ ('.') :: ("1.0.1").data)) = true
      unfold keyD
      rw [k2, k3]
      decide
    have hr12 : ¬ entryRel (pyStrNatChars x ++ ('.') :: ("0.2.5").data, h1)
        (pyStrNatChars y ++ ('.') :: ("0.1.9").data, h2) := by
      show ¬ (lexLe (keyD (pyStrNatChars x ++ ('.') :: ("0.2.5").data))
        (keyD (pyStrNatChars y ++ ('.') :: ("0.1.9").data)) = true)
      unfold keyD
      rw [k1, k2]
      decide
    have hr13 : entryRel (pyStrNatChars x ++ ('.') :: ("0.2.5").data, h1)
        (pyStrNatChars z ++ ('.') :: ("1.0.1").data, h3) := by
      show lexLe (keyD (pyStrNatChars x ++ ('.') :: ("0.2.5").data))
        (keyD (pyStrNatChars z ++ ('.') :: ("1.0.1").data)) = true
      unfold keyD
      rw [k1, k3]
      decide
    have hall : ∀ e ∈ [(pyStrNatChars x ++ ('.') :: ("0.2.5").data, h1),
        (pyStrNatChars y ++ ('.') :: ("0.1.9").data, h2),
        (pyStrNatChars z ++ ('.') :: ("1.0.1").data, h3)], (keyOf e.1).isSome = true := by
      intro e he
      simp only [List.mem_cons, List.not_mem_nil, or_false] at he
      rcases he with rfl | rfl | rfl
      · rw [show ((pyStrNatChars x ++ ('.') :: ("0.2.5").data, h1) : EntryC).1 =
          pyStrNatChars x ++ ('.') :: ("0.2.5").data from rfl, k1]
        rfl
      · rw [show ((pyStrNatChars y ++ ('.') :: ("0.1.9").data, h2) : EntryC).1 =
          pyStrNatChars y ++ ('.') :: ("0.1.9").data from rfl, k2]
        rfl
      · rw [show ((pyStrNatChars z ++ ('.') :: ("1.0.1").data, h3) : EntryC).1 =
          pyStrNatChars z ++ ('.') :: ("1.0.1").data from rfl, k3]
        rfl
    rw [sortEntriesC_some _ hall]
    congr 1
    calc List.insertionSort entryRel
          [(pyStrNatChars x ++ ('.') :: ("0.2.5").data, h1),
           (pyStrNatChars y ++ ('.') :: ("0.1.9").data, h2),
           (pyStrNatChars z ++ ('.') :: ("1.0.1").data, h3)]
        = List.orderedInsert entryRel (pyStrNatChars x ++ ('.') :: ("0.2.5").data, h1)
            (List.orderedInsert entryRel (pyStrNatChars y ++ ('.') :: ("0.1.9").data, h2)
              [(pyStrNatChars z ++ ('.') :: ("1.0.1").data, h3)]) := rfl
      _ = List.orderedInsert entryRel (pyStrNatChars x ++ ('.') :: ("0.2.5").data, h1)
            [(pyStrNatChars y ++ ('.') :: ("0.1.9").data, h2),
             (pyStrNatChars z ++ ('.') :: ("1.0.1").data, h3)] := by
          rw [List.orderedInsert, if_pos hr23]
      _ = [(pyStrNatChars y ++ ('.') :: ("0.1.9").data, h2),
           (pyStrNatChars x ++ ('.') :: ("0.2.5").data, h1),
           (pyStrNatChars z ++ ('.') :: ("1.0.1").data, h3)] := by
          rw [List.orderedInsert, if_neg hr12, List.orderedInsert, if_pos hr13]

theorem c2_sorted_witness :
    ∃ s, sortEntriesC [((("10.0.2.5").data : List Char), ("a").data)] = some s ∧
      List.Sorted entryRel s ∧ s.Perm [((("10.0.2.5").data : List Char), ("a").data)] :=
  c2_sorted_by_last_three_octets.1 [((("10.0.2.5").data : List Char), ("a").data)] (by decide)

theorem extractFromC_cons_none (dom : List Char) (st : Bool × List Char) (l : List Char)
    (ls : List (List Char)) (st2 : Bool × List Char)
    (h : extractStepC dom st l = (st2, none)) :
    extractFromC dom st (l :: ls) = extractFromC dom st2 ls := by
  rw [extractFromC, h]
  rfl

/-- C3: extraction is order-preserving and context-scoped: after any
prefix, a pool-declaration line followed by N host lines and then a
line that is neither a host nor a pool line contributes exactly N
records, each bearing the pool's case-folded name joined with the DNS
domain; the scan continues after the terminating line with the in-pool
flag off; and a stretch of input containing no pool-declaration line
contributes no records at all when the flag is off. -/
theorem c3_extraction_context_scoped
    (pre hosts post : List (List Char)) (pl nh name dom : List Char)
    (hprenl : ∀ l ∈ pre, ('\n') ∉ l) (hplnl : ('\n') ∉ pl) (hnhnl : ('\n') ∉ nh)
    (hhostsnl : ∀ l ∈ hosts, ('\n') ∉ l) (hpostnl : ∀ l ∈ post, ('\n') ∉ l)
    (hpl : poolOfChars (stripChars pl) = some name)
    (hhosts : ∀ l ∈ hosts, (hostOfChars (stripChars l)).isSome = true)
    (hnh : poolOfChars (stripChars nh) = none ∧ hostOfChars (stripChars nh) = none) :
    extract_records (joinChar ('\n') (pre ++ pl :: (hosts ++ nh :: post))) dom =
      extractFromC dom (false, []) pre
        ++ hosts.filterMap (fun l => (hostOfChars (stripChars l)).map
            (fun p => (p.1, name.map Char.toLower ++ ('.') :: dom)))
        ++ extractFromC dom (false, name.map Char.toLower) post
    ∧ (hosts.filterMap (fun l => (hostOfChars (stripChars l)).map
            (fun p => (p.1, name.map Char.toLower ++ ('.') :: dom)))).length = hosts.length
    ∧ (∀ e ∈ hosts.filterMap (fun l => (hostOfChars (stripChars l)).map
            (fun p => (p.1, name.map Char.toLower ++ ('.') :: dom))),
        e.2 = name.map Char.toLower ++ ('.') :: dom)
    ∧ (∀ (ls : List (List Char)) (pn : List Char),
        (∀ l ∈ ls, poolOfChars (stripChars l) = none) →
        extractFromC dom (false, pn) ls = []) := by
  refine ⟨?_, ?_, ?_, fun ls pn h => extract_no_pool dom ls h pn⟩
  · have hjoin : splitOnChar ('\n') (joinChar ('\n') (pre ++ pl :: (hosts ++ nh :: post))) =
        pre ++ pl :: (hosts ++ nh :: post) := by
      apply splitOnChar_joinChar
      · simp
      · intro l hl c hc e
        subst e
        rcases List.mem_append.mp hl with h1 | h1
        · exact hprenl l h1 hc
        · rcases List.mem_cons.mp h1 with h2 | h2
          · subst h2; exact hplnl hc
          · rcases List.mem_append.mp h2 with h3 | h3
            · exact hhostsnl l h3 hc
            · rcases List.mem_cons.mp h3 with h4 | h4
              · subst h4; exact hnhnl hc
              · exact hpostnl l h4 hc
    unfold extract_records
    rw [hjoin, extractFromC_append, List.append_assoc]
    congr 1
    rw [extractFromC, extractStep_pool dom _ pl name hpl]
    simp only [Option.toList_none, List.nil_append]
    rw [extract_host_run dom _ hosts hhosts (nh :: post)]
    congr 1
    exact extractFromC_cons_none dom _ nh post (false, name.map Char.toLower)
      (extractStep_other dom _ nh hnh.1 hnh.2)
  · apply filterMap_length_of_isSome
    intro l hl
    obtain ⟨p, hp⟩ := Option.isSome_iff_exists.mp (hhosts l hl)
    rw [hp]
    rfl
  · intro e he
    obtain ⟨l, _, hfl⟩ := List.mem_filterMap.mp he
    obtain ⟨p, _, he2⟩ := Option.map_eq_some'.mp hfl
    rw [← he2]

theorem c3_extraction_witness :
    ([(("host 10.0.0.5 255.255.255.0").data : List Char)].filterMap
      (fun l => (hostOfChars (stripChars l)).map
        (fun p => (p.1, (("Office").data : List Char).map Char.toLower ++
          ('.') :: ("lan").data)))).length =
      [(("host 10.0.0.5 255.255.255.0").data : List Char)].length :=
  (c3_extraction_context_scoped [] [("host 10.0.0.5 255.255.255.0").data] []
    (("ip dhcp pool Office").data) (("!").data) (("Office").data) (("lan").data)
    (by decide) (by decide) (by decide) (by decide) (by decide) (by decide) (by decide)
    (by decide)).2.1

/-- C1 counterexample: a record whose hostname contains a space renders
into a three-token line that parse_host_file drops, so the entries
parsed back out of the rendered document are not the generated
(ip, hostname) pairs. -/
theorem c1_counterexample :
    Option.map parseC (renderHostDocC [((("1.2.3.4").data : List Char), ("a b").data)] []
      (("t").data)) = some []
    ∧ [((("1.2.3.4").data : List Char), ("a b").data)] ≠ ([] : List EntryC) := by
  constructor
  · rfl
  · simp

/-- C1 (amended): for every sequence of reservation records whose
addresses are dotted quads of 1-3-digit groups and whose hostnames are
nonempty and whitespace-free, rendering with empty existing content and
a break-free timestamp succeeds, and parsing the rendered document
returns exactly the generated lines' (ip, hostname) pairs, as
(hostname, ip) tuples, order preserved. -/
theorem c1_roundtrip (entries : List EntryC) (now : List Char)
    (hent : ∀ e ∈ entries, isQuadB e.1 = true ∧ e.2 ≠ [] ∧ ∀ c ∈ e.2, pyWs c = false)
    (hnow : ∀ c ∈ now, lineBreakChar c = false) :
    ∃ s doc, sortEntriesC entries = some s ∧
      renderHostDocC entries [] now = some doc ∧
      parseC doc = s.map (fun e => (e.2, e.1)) := by
  have hkeys : ∀ e ∈ entries, (keyOf e.1).isSome = true :=
    fun e he => isQuadB_key_isSome e.1 (hent e he).1
  refine ⟨List.insertionSort entryRel entries,
    headerC now ++ [] ++
      joinChar ('\n') ((List.insertionSort entryRel entries).map entryLineC),
    sortEntriesC_some entries hkeys, ?_, ?_⟩
  · unfold renderHostDocC
    rw [sortEntriesC_some entries hkeys]
    rfl
  · rw [List.append_nil]
    apply parseC_render
    · intro e he
      have hmem : e ∈ entries := (List.perm_insertionSort entryRel entries).mem_iff.mp he
      obtain ⟨hq, hne, hws⟩ := hent e hmem
      refine ⟨isQuadB_ne_nil e.1 hq, isQuadB_not_ws e.1 hq, ?_, hne, hws⟩
      obtain ⟨c, rest, hcons, hdig⟩ := isQuadB_head_digit e.1 hq
      rw [hcons, List.head?_cons]
      intro hh
      injection hh with hh2
      exact digit_ne c hdig ('#') (by decide) hh2
    · exact hnow

theorem c1_roundtrip_witness :
    ∃ s doc,
      sortEntriesC [((("10.0.0.5").data : List Char), ("printer.lan").data)] = some s ∧
      renderHostDocC [((("10.0.0.5").data : List Char), ("printer.lan").data)] []
        (("2024-01-01 00:00").data) = some doc ∧
      parseC doc = s.map (fun e => (e.2, e.1)) :=
  c1_roundtrip [((("10.0.0.5").data : List Char), ("printer.lan").data)]
    (("2024-01-01 00:00").data) (by decide) (by decide)

/-- C6 counterexample: with the DNS suffix string ".home.arpa" passed
as the domain, the code joins pool name and domain with an explicit
dot, so the generated hostname is "printer..home.arpa" and not the
claimed "printer.home.arpa". -/
theorem c6_counterexample :
    Option.map parse_host_file
      (convert_to_host_file ("ip dhcp pool printer\nhost 172.26.20.41 255.255.255.0") ("")
        (".home.arpa") ("2024-01-01 00:00")) =
      some [(("printer..home.arpa"), ("172.26.20.41"))]
    ∧ ("printer..home.arpa") ≠ ("printer.home.arpa") := by
  constructor
  · rfl
  · simp

/-- C6 (amended): with DNS domain "home.arpa" (the code joins pool name
and domain with an explicit dot), raw config of one pool "printer" with
host line 172.26.20.41 255.255.255.0 and empty existing content renders
a document whose generated line is exactly
"172.26.20.41 printer.home.arpa", and parsing that document back yields
exactly the entry ("printer.home.arpa", "172.26.20.41"). -/
theorem c6_end_to_end (now : String) (hnow : ∀ c ∈ now.data, lineBreakChar c = false) :
    convert_to_host_file ("ip dhcp pool printer\nhost 172.26.20.41 255.255.255.0") ("")
        ("home.arpa") now =
      some (String.mk (headerC now.data ++ ("172.26.20.41 printer.home.arpa").data))
    ∧ Option.map parse_host_file
        (convert_to_host_file ("ip dhcp pool printer\nhost 172.26.20.41 255.255.255.0") ("")
          ("home.arpa") now) =
      some [(("printer.home.arpa"), ("172.26.20.41"))] := by
  have h1 : convert_to_host_file ("ip dhcp pool printer\nhost 172.26.20.41 255.255.255.0")
      ("") ("home.arpa") now =
      some (String.mk (headerC now.data ++ ("172.26.20.41 printer.home.arpa").data)) := by
    unfold convert_to_host_file convertC renderHostDocC
    have hE : sortEntriesC (extract_records
        (("ip dhcp pool printer\nhost 172.26.20.41 255.255.255.0") : String).data
        (("home.arpa") : String).data) =
        some [((("172.26.20.41").data : List Char), ("printer.home.arpa").data)] := by
      rfl
    rw [hE]
    simp only [Option.map_some']
    congr 2
    rw [List.append_nil]
    rfl
  refine ⟨h1, ?_⟩
  rw [h1]
  simp only [Option.map_some']
  congr 1
  have h2 : parseC (headerC now.data ++ ("172.26.20.41 printer.home.arpa").data) =
      [((("printer.home.arpa").data : List Char), ("172.26.20.41").data)] := by
    have h3 := parseC_render
      [((("172.26.20.41").data : List Char), ("printer.home.arpa").data)] now.data
      (by
        intro e he
        simp only [List.mem_singleton] at he
        subst he
        exact ⟨by decide, by decide, by decide, by decide, by decide⟩) hnow
    exact h3
  unfold parse_host_file
  rw [show (String.mk (headerC now.data ++
    ("172.26.20.41 printer.home.arpa").data)).data =
    headerC now.data ++ ("172.26.20.41 printer.home.arpa").data from rfl, h2]
  rfl

theorem c6_end_to_end_witness :
    convert_to_host_file ("ip dhcp pool printer\nhost 172.26.20.41 255.255.255.0") ("")
        ("home.arpa") ("2024-01-01 00:00") =
      some (String.mk (headerC (("2024-01-01 00:00") : String).data ++
        ("172.26.20.41 printer.home.arpa").data)) :=
  (c6_end_to_end ("2024-01-01 00:00") (by decide)).1

end Cisco2Hosts
